import Mathlib

/-!
Verification of the CDC 6602 character-ROM decode-and-rasterize pipeline.

Shallow embedding of the core modules:
- `src/chargen/cdcRomFunctions.js` — stroke decoder (`binaryToVector`,
  `decodeBinary`, `getCharacterBinary`);
- `src/chargenTriplets.js` — triplet conversion and metrics
  (`vectorToTriplets`, `findDwellPoints`, `tripletsToSegments`,
  `calculateBeamOnDistance`);
- `src/chargenRenderer.js` — rasterizers (`renderTrueSizeBitmap`,
  `renderCDCScaledBitmap` with their Bresenham line primitives).

JS numbers used as stroke codes are modelled as `Nat` (the ROM holds
values 0..31 and the decoder reads single bits), coordinates as `Int`,
and floating-point distance as `ℝ`. Canvas `fillRect` calls are modelled
as a list of emitted rectangles.
-/

/-- One decoded point: `[currentX, currentY, beamOn]` as pushed by
`binaryToVector` in cdcRomFunctions.js. -/
structure VectorPoint where
  x : Int
  y : Int
  beamOn : Bool
deriving Repr, DecidableEq

/-- The decoder's loop state in `binaryToVector`:
`currentX, currentY, beamOn, horizontalDirection, verticalDirection`. -/
structure DecodeState where
  x : Int
  y : Int
  beamOn : Bool
  hDir : Int
  vDir : Int
deriving Repr, DecidableEq

/-- Initial state of `binaryToVector`: position (0,0), beam off, both
directions +1. -/
def initialState : DecodeState := ⟨0, 0, false, 1, 1⟩

/-- One iteration of the `binaryToVector` loop body (cdcRomFunctions.js
lines 52-90): decode the five flags from the binary value, apply the
vertical rule, then the horizontal rule, then the beam toggle. -/
def decodeStep (s : DecodeState) (binary : Nat) : DecodeState :=
  let V1 := binary.testBit 4
  let V2 := binary.testBit 3
  let H1 := binary.testBit 2
  let H2 := binary.testBit 1
  let U := binary.testBit 0
  let s1 :=
    if V1 && V2 then { s with vDir := -s.vDir }
    else if V1 then { s with y := s.y + 1 * s.vDir }
    else if V2 then { s with y := s.y + 2 * s.vDir }
    else s
  let s2 :=
    if H1 && H2 then { s1 with hDir := -s1.hDir }
    else if H1 then { s1 with x := s1.x + 1 * s1.hDir }
    else if H2 then { s1 with x := s1.x + 2 * s1.hDir }
    else s1
  if U then { s2 with beamOn := !s2.beamOn } else s2

/-- The `binaryToVector` loop: steps the state over each binary value
and pushes `[currentX, currentY, beamOn]` after each stroke. -/
def binaryToVectorGo (s : DecodeState) : List Nat → List VectorPoint
  | [] => []
  | b :: rest =>
    let s1 := decodeStep s b
    ⟨s1.x, s1.y, s1.beamOn⟩ :: binaryToVectorGo s1 rest

/-- `binaryToVector` from cdcRomFunctions.js: decode a glyph's stroke
codes into absolute points (the empty-input early return yields `[]`,
which coincides with running the loop on an empty list). -/
def binaryToVector (binaryData : List Nat) : List VectorPoint :=
  binaryToVectorGo initialState binaryData

/-- C1: In decode, a stroke with both movement bits of one axis set toggles
that axis's direction and causes no movement on that axis (for vertical:
bits 4 and 3 both set leave `y` unchanged and negate `vDir`; for
horizontal: bits 2 and 1 both set leave `x` unchanged and negate `hDir`),
and the persisted direction affects the next movement stroke: decoding
the glyph `[0b11000, 0b10000]` from the initial state yields exactly the
points `[(0,0,false), (0,-1,false)]`. -/
theorem toggle_stroke_correct :
    (∀ (s : DecodeState) (b : Nat), b.testBit 4 = true → b.testBit 3 = true →
      (decodeStep s b).y = s.y ∧ (decodeStep s b).vDir = -s.vDir) ∧
    (∀ (s : DecodeState) (b : Nat), b.testBit 2 = true → b.testBit 1 = true →
      (decodeStep s b).x = s.x ∧ (decodeStep s b).hDir = -s.hDir) ∧
    binaryToVector [0b11000, 0b10000] =
      [⟨0, 0, false⟩, ⟨0, -1, false⟩] := by
  refine ⟨?_, ?_, by decide⟩
  · intro s b h4 h3
    simp only [decodeStep, h4, h3]
    repeat' split
    all_goals simp_all
  · intro s b h2 h1
    simp only [decodeStep, h2, h1]
    repeat' split
    all_goals simp_all

/-- Witness for C1: instantiate the toggle lemmas at the concrete stroke
`0b11000` (vertical toggle) and `0b00110` (horizontal toggle) from the
initial state. -/
theorem toggle_stroke_correct_witness :
    ((decodeStep initialState 0b11000).y = initialState.y ∧
      (decodeStep initialState 0b11000).vDir = -initialState.vDir) ∧
    ((decodeStep initialState 0b00110).x = initialState.x ∧
      (decodeStep initialState 0b00110).hDir = -initialState.hDir) :=
  ⟨toggle_stroke_correct.1 initialState 0b11000 (by decide) (by decide),
   toggle_stroke_correct.2.1 initialState 0b00110 (by decide) (by decide)⟩

theorem binaryToVectorGo_length (s : DecodeState) (l : List Nat) :
    (binaryToVectorGo s l).length = l.length := by
  induction l generalizing s with
  | nil => rfl
  | cons b rest ih => simp [binaryToVectorGo, ih]

/-- C2: For every glyph (any stroke-code list, including the empty one), the
decoded point sequence has exactly the same length as the input glyph:
one `VectorPoint` per stroke code, and the empty glyph decodes to the
empty sequence. -/
theorem binaryToVector_length (g : List Nat) :
    (binaryToVector g).length = g.length :=
  binaryToVectorGo_length initialState g

theorem decodeStep_mask (s : DecodeState) (b : Nat) :
    decodeStep s (b &&& 0b11111) = decodeStep s b := by
  have h : ∀ i, i < 5 → (b &&& 0b11111).testBit i = b.testBit i := by
    intro i hi
    rw [Nat.testBit_and]
    have h31 : (0b11111 : Nat).testBit i = true := by
      interval_cases i <;> decide
    simp [h31]
  simp only [decodeStep, h 4 (by omega), h 3 (by omega), h 2 (by omega),
    h 1 (by omega), h 0 (by omega)]

/-- C3: Decoding is total over all 8-bit stroke-code values (the decoder is
a total function on `List Nat`, so it never fails or rejects) and only the
low 5 bits are interpreted: from every decode state, decoding a glyph
containing a byte `b ≤ 255` at any position gives the same result as
decoding the glyph with `b` replaced by `b &&& 0b11111`. -/
theorem binaryToVector_mask_low_five (st : DecodeState) (pre post : List Nat)
    (b : Nat) (hb : b ≤ 255) :
    binaryToVectorGo st (pre ++ b :: post) =
      binaryToVectorGo st (pre ++ (b &&& 0b11111) :: post) := by
  induction pre generalizing st with
  | nil => simp [binaryToVectorGo, decodeStep_mask]
  | cons c rest ih => simp [binaryToVectorGo, ih]

/-- Witness for C3: replacing the byte `0b11001000` (= 200) by its low five
bits `0b01000` (= 8) in a concrete glyph leaves the decode unchanged. -/
theorem binaryToVector_mask_low_five_witness :
    binaryToVectorGo initialState ([0b00010] ++ 0b11001000 :: [0b10000]) =
      binaryToVectorGo initialState
        ([0b00010] ++ (0b11001000 &&& 0b11111) :: [0b10000]) :=
  binaryToVector_mask_low_five initialState [0b00010] [0b10000] 0b11001000
    (by decide)

/-- `getCharacterBinary` from cdcRomFunctions.js:
`cdcRomBinary[char] || cdcRomBinary[' ']`. The `cdcRomBinary` table is data
loaded from a separate module, so it is an explicit association-list
parameter here; its values are JS arrays, which are always truthy, so the
`||` fallback fires exactly when `char` is absent. A key absent from the
table (`undefined` in JS) is modelled as `none`. -/
def getCharacterBinary (cdcRomBinary : List (String × List Nat))
    (char : String) : Option (List Nat) :=
  (cdcRomBinary.lookup char).orElse fun _ => cdcRomBinary.lookup " "

/-- C9: Looking up the binary glyph definition for a character that is not
present in the ROM table returns the space character's glyph definition
rather than failing: for every table and every key absent from it,
`getCharacterBinary` returns exactly the table's entry for `" "`. -/
theorem getCharacterBinary_absent (rom : List (String × List Nat))
    (c : String) (h : rom.lookup c = none) :
    getCharacterBinary rom c = rom.lookup " " := by
  simp [getCharacterBinary, h]

/-- Witness for C9: in a table holding only a space glyph, looking up the
absent key `"A"` returns the space glyph. -/
theorem getCharacterBinary_absent_witness :
    getCharacterBinary [(" ", [0, 0])] "A" = some [0, 0] :=
  Eq.trans (getCharacterBinary_absent [(" ", [0, 0])] "A" (by decide))
    (by decide)

/-- One triplet `[destination_x_abs, destination_y_abs, beam_intensity]`
as produced by chargenTriplets.js. -/
structure Triplet where
  x : Int
  y : Int
  intensity : Nat
deriving Repr, DecidableEq

/-- `vectorToTriplets` from chargenTriplets.js: map each `[x, y, beamOn]`
to `[x, y, beamOn ? 1 : 0]` (the empty-input early return coincides with
mapping over the empty list). -/
def vectorToTriplets (vectorData : List VectorPoint) : List Triplet :=
  vectorData.map fun p => ⟨p.x, p.y, if p.beamOn then 1 else 0⟩

/-- C8: `vectorToTriplets` is a pure, order-preserving, length-preserving,
element-wise map: the output has the same length as the input, and at every
index `i` the triplet keeps the point's `x` and `y` and has intensity
exactly `1` when the point's `beamOn` is `true` and exactly `0` otherwise
(in particular intensity is `1` iff `beamOn` is `true`). -/
theorem vectorToTriplets_pointwise (pts : List VectorPoint) :
    (vectorToTriplets pts).length = pts.length ∧
    ∀ i, i < pts.length →
      ((vectorToTriplets pts).getD i ⟨0, 0, 0⟩).x =
        (pts.getD i ⟨0, 0, false⟩).x ∧
      ((vectorToTriplets pts).getD i ⟨0, 0, 0⟩).y =
        (pts.getD i ⟨0, 0, false⟩).y ∧
      ((vectorToTriplets pts).getD i ⟨0, 0, 0⟩).intensity =
        (if (pts.getD i ⟨0, 0, false⟩).beamOn then 1 else 0) ∧
      (((vectorToTriplets pts).getD i ⟨0, 0, 0⟩).intensity = 1 ↔
        (pts.getD i ⟨0, 0, false⟩).beamOn = true) := by
  refine ⟨by simp [vectorToTriplets], ?_⟩
  intro i hi
  induction pts generalizing i with
  | nil => simp at hi
  | cons p rest ih =>
    cases i with
    | zero =>
      simp only [vectorToTriplets, List.map_cons, List.getD_cons_zero]
      cases hp : p.beamOn <;> simp [hp]
    | succ j =>
      simp only [vectorToTriplets, List.map_cons, List.getD_cons_succ]
      exact ih j (by simpa using hi)

/-- Witness for C8: at index 1 of `[(1,2,true), (3,0,false)]` — a beam-off
point — the mapped triplet keeps `x` and `y` and has intensity exactly 0. -/
theorem vectorToTriplets_pointwise_witness :
    ((vectorToTriplets [⟨1, 2, true⟩, ⟨3, 0, false⟩]).getD 1 ⟨0, 0, 0⟩).x =
      (([⟨1, 2, true⟩, ⟨3, 0, false⟩] :
        List VectorPoint).getD 1 ⟨0, 0, false⟩).x ∧
    ((vectorToTriplets [⟨1, 2, true⟩, ⟨3, 0, false⟩]).getD 1 ⟨0, 0, 0⟩).y =
      (([⟨1, 2, true⟩, ⟨3, 0, false⟩] :
        List VectorPoint).getD 1 ⟨0, 0, false⟩).y ∧
    ((vectorToTriplets [⟨1, 2, true⟩, ⟨3, 0, false⟩]).getD 1
        ⟨0, 0, 0⟩).intensity =
      (if (([⟨1, 2, true⟩, ⟨3, 0, false⟩] :
        List VectorPoint).getD 1 ⟨0, 0, false⟩).beamOn then 1 else 0) ∧
    (((vectorToTriplets [⟨1, 2, true⟩, ⟨3, 0, false⟩]).getD 1
        ⟨0, 0, 0⟩).intensity = 1 ↔
      (([⟨1, 2, true⟩, ⟨3, 0, false⟩] :
        List VectorPoint).getD 1 ⟨0, 0, false⟩).beamOn = true) :=
  (vectorToTriplets_pointwise [⟨1, 2, true⟩, ⟨3, 0, false⟩]).2 1 (by decide)

/-- `findDwellPoints` from chargenTriplets.js: the JS loop runs `i` from 1
to `length - 1` and pushes `i` when position is unchanged from `i - 1` and
both intensities are positive; embedded as a filter over all indices with
an explicit `1 ≤ i` guard. -/
def findDwellPoints (triplets : List Triplet) : List Nat :=
  (List.range triplets.length).filter fun i =>
    decide (1 ≤ i) &&
      (decide ((triplets.getD i ⟨0, 0, 0⟩).x =
          (triplets.getD (i - 1) ⟨0, 0, 0⟩).x) &&
       decide ((triplets.getD i ⟨0, 0, 0⟩).y =
          (triplets.getD (i - 1) ⟨0, 0, 0⟩).y) &&
       decide (0 < (triplets.getD i ⟨0, 0, 0⟩).intensity) &&
       decide (0 < (triplets.getD (i - 1) ⟨0, 0, 0⟩).intensity))

/-- C6: `findDwellPoints` returns exactly the indices `i ≥ 1` whose
position equals the previous position with both intensities nonzero; on
`[(3,3,1), (3,3,1), (4,3,1)]` it returns `[1]` only, and (by the `1 ≤ i`
bound in the characterization) index 0 is never a dwell point. -/
theorem findDwellPoints_spec :
    (∀ (triplets : List Triplet) (i : Nat),
      i ∈ findDwellPoints triplets ↔
        (1 ≤ i ∧ i < triplets.length ∧
          (triplets.getD i ⟨0, 0, 0⟩).x = (triplets.getD (i - 1) ⟨0, 0, 0⟩).x ∧
          (triplets.getD i ⟨0, 0, 0⟩).y = (triplets.getD (i - 1) ⟨0, 0, 0⟩).y ∧
          0 < (triplets.getD i ⟨0, 0, 0⟩).intensity ∧
          0 < (triplets.getD (i - 1) ⟨0, 0, 0⟩).intensity)) ∧
    findDwellPoints [⟨3, 3, 1⟩, ⟨3, 3, 1⟩, ⟨4, 3, 1⟩] = [1] := by
  constructor
  · intro triplets i
    simp only [findDwellPoints, List.mem_filter, List.mem_range,
      Bool.and_eq_true, decide_eq_true_eq]
    tauto
  · decide

/-- One stroke segment `{x1, y1, x2, y2, intensity}` as produced by
`tripletsToSegments` in chargenTriplets.js. -/
structure Segment where
  x1 : Int
  y1 : Int
  x2 : Int
  y2 : Int
  intensity : Nat
deriving Repr, DecidableEq

/-- Loop of `tripletsToSegments`: one segment per triplet, from the
previous position (initially the implicit origin) to the triplet. -/
def tripletsToSegmentsGo (prevX prevY : Int) : List Triplet → List Segment
  | [] => []
  | t :: rest =>
    ⟨prevX, prevY, t.x, t.y, t.intensity⟩ :: tripletsToSegmentsGo t.x t.y rest

/-- `tripletsToSegments` from chargenTriplets.js: convert triplets to
stroke segments, starting from the implicit origin (0, 0). -/
def tripletsToSegments (triplets : List Triplet) : List Segment :=
  tripletsToSegmentsGo 0 0 triplets

/-- Loop of `calculateBeamOnDistance` (chargenTriplets.js lines 138-151):
accumulate `sqrt(dx² + dy²)` for each triplet whose intensity is positive,
while the previous position advances on every triplet. JS floating point
is idealized as `ℝ`. -/
noncomputable def calculateBeamOnDistanceGo (prevX prevY : Int) :
    List Triplet → ℝ
  | [] => 0
  | t :: rest =>
    (if 0 < t.intensity then
        Real.sqrt (((t.x - prevX : Int) : ℝ) * ((t.x - prevX : Int) : ℝ) +
          ((t.y - prevY : Int) : ℝ) * ((t.y - prevY : Int) : ℝ))
      else 0) + calculateBeamOnDistanceGo t.x t.y rest

/-- `calculateBeamOnDistance` from chargenTriplets.js: total beam-on path
length, starting from the implicit origin (0, 0). -/
noncomputable def calculateBeamOnDistance (triplets : List Triplet) : ℝ :=
  calculateBeamOnDistanceGo 0 0 triplets

/-- Spec-side formulation of C7, from the spec's words: pair every triplet
with its predecessor position (the implicit origin `(0,0)` for the first
point, the previous triplet's position afterwards — so the predecessor
advances on every point, beam-off ones included), keep only the pairs whose
destination intensity is positive, and sum the Euclidean distances. -/
noncomputable def pathLengthSpec (triplets : List Triplet) : ℝ :=
  (((triplets.zip (((0, 0) : Int × Int) ::
        triplets.map fun t => (t.x, t.y))).filter
      fun p => decide (0 < p.1.intensity)).map
    fun p => Real.sqrt (((p.1.x - p.2.1 : Int) : ℝ) ^ 2 +
      ((p.1.y - p.2.2 : Int) : ℝ) ^ 2)).sum

theorem calculateBeamOnDistanceGo_spec (l : List Triplet) (px py : Int) :
    calculateBeamOnDistanceGo px py l =
      (((l.zip (((px, py) : Int × Int) :: l.map fun t => (t.x, t.y))).filter
          fun p => decide (0 < p.1.intensity)).map
        fun p => Real.sqrt (((p.1.x - p.2.1 : Int) : ℝ) ^ 2 +
          ((p.1.y - p.2.2 : Int) : ℝ) ^ 2)).sum := by
  induction l generalizing px py with
  | nil => simp [calculateBeamOnDistanceGo]
  | cons t rest ih =>
    simp only [calculateBeamOnDistanceGo, ih t.x t.y, List.map_cons,
      List.zip_cons_cons, List.filter_cons]
    by_cases h : 0 < t.intensity
    · simp [h, sq]
    · simp [h]

/-- C7: `calculateBeamOnDistance` equals the sum of Euclidean distances
between each point and its predecessor over exactly the segments whose
destination intensity is positive, where the first predecessor is the
implicit origin (0,0) and the predecessor advances on every point,
beam-off ones included. -/
theorem calculateBeamOnDistance_eq_pathLengthSpec (triplets : List Triplet) :
    calculateBeamOnDistance triplets = pathLengthSpec triplets :=
  calculateBeamOnDistanceGo_spec triplets 0 0

/-- One `ctx.fillRect(x, y, w, h)` call emitted by a rasterizer. -/
structure Rect where
  x : Int
  y : Int
  w : Nat
  h : Nat
deriving Repr, DecidableEq

/-- The shared Bresenham loop of `drawPixelLine` / `drawCDCBitmapLine`
(chargenRenderer.js): emit the current `(x, y)`, stop at the endpoint,
else update the error term and advance `x` and/or `y`. The JS `while
(true)` loop is embedded with explicit fuel; Bresenham advances `x`
exactly `dx` times and `y` exactly `dy` times before reaching the
endpoint, so `dx + dy + 1` iterations always suffice. -/
def bresenhamGo (fuel : Nat) (x y x1 y1 sx sy dx dy err : Int) :
    List (Int × Int) :=
  match fuel with
  | 0 => []
  | Nat.succ f =>
    (x, y) ::
      (if x = x1 ∧ y = y1 then []
       else
         let e2 := 2 * err
         let errx := if e2 > -dy then err - dy else err
         let xn := if e2 > -dy then x + sx else x
         let erry := if e2 < dx then errx + dx else errx
         let yn := if e2 < dx then y + sy else y
         bresenhamGo f xn yn x1 y1 sx sy dx dy erry)

/-- The pixel positions visited by the Bresenham walk from `(x0, y0)` to
`(x1, y1)`, with the initialization used by both line primitives in
chargenRenderer.js: `dx = |x1-x0|`, `dy = |y1-y0|`, signs from coordinate
comparison, initial error `dx - dy`. -/
def bresenhamPoints (x0 y0 x1 y1 : Int) : List (Int × Int) :=
  let dx := |x1 - x0|
  let dy := |y1 - y0|
  let sx : Int := if x0 < x1 then 1 else -1
  let sy : Int := if y0 < y1 then 1 else -1
  bresenhamGo ((dx + dy).toNat + 1) x0 y0 x1 y1 sx sy dx dy (dx - dy)

/-- `drawCDCBitmapLine` from chargenRenderer.js: for each visited point,
`ctx.fillRect(x, (7·scale - 1) - y, beamWidth, beamWidth)`. -/
def drawCDCBitmapLine (x0 y0 x1 y1 : Int) (beamWidth scale : Nat) :
    List Rect :=
  (bresenhamPoints x0 y0 x1 y1).map fun p =>
    ⟨p.1, 7 * (scale : Int) - 1 - p.2, beamWidth, beamWidth⟩

/-- Result of `renderCDCScaledBitmap`: the cleared square canvas region
(`resolution × resolution`) and the stroke `fillRect` calls. -/
structure CDCRender where
  resolution : Nat
  strokes : List Rect
deriving Repr, DecidableEq

/-- Loop of `renderCDCScaledBitmap`: for each triplet with positive
intensity, draw a line from the previous position to it with both
endpoints' coordinates multiplied by `scale`; the previous position
advances on every triplet. -/
def renderCDCScaledBitmapGo (scale beamWidth : Nat) (prevX prevY : Int) :
    List Triplet → List Rect
  | [] => []
  | t :: rest =>
    (if 0 < t.intensity then
        drawCDCBitmapLine (prevX * (scale : Int)) (prevY * (scale : Int))
          (t.x * (scale : Int)) (t.y * (scale : Int)) beamWidth scale
      else []) ++ renderCDCScaledBitmapGo scale beamWidth t.x t.y rest

/-- `renderCDCScaledBitmap` from chargenRenderer.js with default options
(`beamWidth = 1`, no pixel grid): `resolution = 7 · scale`, strokes drawn
at scaled coordinates from the implicit origin. `beamWidth` is kept as the
option parameter. -/
def renderCDCScaledBitmap (triplets : List Triplet) (scale beamWidth : Nat) :
    CDCRender :=
  ⟨7 * scale, renderCDCScaledBitmapGo scale beamWidth 0 0 triplets⟩

/-- Spec-side description of the CDC-scaled strokes for C5: take the
stroke segments of the triplets (implicit origin start), keep those whose
destination intensity is positive, and for each one emit the Bresenham
walk between the scale-multiplied endpoints, each visited point flipped to
`(7·scale - 1) - y` and filled as a 1×1 device pixel. -/
def cdcScaledStrokesSpec (triplets : List Triplet) (scale : Nat) :
    List Rect :=
  ((tripletsToSegments triplets).filter fun s =>
      decide (0 < s.intensity)).flatMap fun s =>
    (bresenhamPoints (s.x1 * (scale : Int)) (s.y1 * (scale : Int))
        (s.x2 * (scale : Int)) (s.y2 * (scale : Int))).map fun p =>
      ⟨p.1, 7 * (scale : Int) - 1 - p.2, 1, 1⟩

theorem renderCDCScaledBitmapGo_spec (scale : Nat) (l : List Triplet)
    (px py : Int) :
    renderCDCScaledBitmapGo scale 1 px py l =
      ((tripletsToSegmentsGo px py l).filter fun s =>
          decide (0 < s.intensity)).flatMap fun s =>
        (bresenhamPoints (s.x1 * (scale : Int)) (s.y1 * (scale : Int))
            (s.x2 * (scale : Int)) (s.y2 * (scale : Int))).map fun p =>
          ⟨p.1, 7 * (scale : Int) - 1 - p.2, 1, 1⟩ := by
  induction l generalizing px py with
  | nil => simp [renderCDCScaledBitmapGo, tripletsToSegmentsGo]
  | cons t rest ih =>
    simp only [renderCDCScaledBitmapGo, tripletsToSegmentsGo,
      List.filter_cons, ih t.x t.y]
    by_cases h : 0 < t.intensity
    · simp [h, drawCDCBitmapLine]
    · simp [h]

/-- C5: For CDC-scaled rasterization at every scale in {1, 2, 4, 8} with
default options, the cleared output canvas is `(7·scale) × (7·scale)`,
the strokes are exactly the Bresenham walks over the scale-multiplied
segment endpoints with Y flipped as `(7·scale - 1) - y`, and every drawn
beam pixel is exactly 1 device pixel wide (a 1×1 `fillRect`) regardless
of scale. -/
theorem renderCDCScaledBitmap_spec (triplets : List Triplet) (scale : Nat)
    (hs : scale = 1 ∨ scale = 2 ∨ scale = 4 ∨ scale = 8) :
    (renderCDCScaledBitmap triplets scale 1).resolution = 7 * scale ∧
    (renderCDCScaledBitmap triplets scale 1).strokes =
      cdcScaledStrokesSpec triplets scale ∧
    ∀ r ∈ (renderCDCScaledBitmap triplets scale 1).strokes,
      r.w = 1 ∧ r.h = 1 := by
  refine ⟨rfl, renderCDCScaledBitmapGo_spec scale triplets 0 0, ?_⟩
  intro r hr
  rw [show (renderCDCScaledBitmap triplets scale 1).strokes =
      renderCDCScaledBitmapGo scale 1 0 0 triplets from rfl,
    renderCDCScaledBitmapGo_spec scale triplets 0 0] at hr
  simp only [List.mem_flatMap, List.mem_map] at hr
  obtain ⟨s, _, p, _, hp⟩ := hr
  simp [← hp]

/-- Witness for C5: at scale 2 the canvas is 14×14 and the single beam-on
diagonal stroke of `[(1,1,1)]` matches the spec-side description. -/
theorem renderCDCScaledBitmap_spec_witness :
    (renderCDCScaledBitmap [⟨1, 1, 1⟩] 2 1).resolution = 7 * 2 ∧
    (renderCDCScaledBitmap [⟨1, 1, 1⟩] 2 1).strokes =
      cdcScaledStrokesSpec [⟨1, 1, 1⟩] 2 :=
  ⟨(renderCDCScaledBitmap_spec [⟨1, 1, 1⟩] 2 (Or.inr (Or.inl rfl))).1,
   (renderCDCScaledBitmap_spec [⟨1, 1, 1⟩] 2 (Or.inr (Or.inl rfl))).2.1⟩

/-- `drawPixelLine` from chargenRenderer.js: for each visited point,
`ctx.fillRect(x, 6 - y, 1, 1)`. -/
def drawPixelLine (x0 y0 x1 y1 : Int) : List Rect :=
  (bresenhamPoints x0 y0 x1 y1).map fun p => ⟨p.1, 6 - p.2, 1, 1⟩

/-- Loop of `renderTrueSizeBitmap` (chargenRenderer.js lines 436-443):
draw a pixel line only for triplets with positive intensity; the previous
position advances on every triplet. -/
def renderTrueSizeBitmapGo (prevX prevY : Int) : List Triplet → List Rect
  | [] => []
  | t :: rest =>
    (if 0 < t.intensity then drawPixelLine prevX prevY t.x t.y else []) ++
      renderTrueSizeBitmapGo t.x t.y rest

/-- `renderTrueSizeBitmap` from chargenRenderer.js: stroke pixels of the
7×7 true-size rendering, starting from the implicit origin. -/
def renderTrueSizeBitmap (triplets : List Triplet) : List Rect :=
  renderTrueSizeBitmapGo 0 0 triplets

/-- C4: End-to-end, the glyph `[0b01010, 0b01010]` decodes from the
initial state to exactly `[(2,2,false), (4,4,false)]`, and true-size
rasterization of the resulting triplets writes no stroke pixels, because
only segments with positive destination intensity are drawn and both
points have the beam off. -/
theorem end_to_end_beam_off_glyph :
    binaryToVector [0b01010, 0b01010] =
      [⟨2, 2, false⟩, ⟨4, 4, false⟩] ∧
    renderTrueSizeBitmap
      (vectorToTriplets (binaryToVector [0b01010, 0b01010])) = [] := by
  decide

/-- Direction invariant of the decoder: both direction registers are
always +1 or -1. -/
def dirOk (s : DecodeState) : Prop :=
  (s.hDir = 1 ∨ s.hDir = -1) ∧ (s.vDir = 1 ∨ s.vDir = -1)

theorem decodeStep_dirOk (s : DecodeState) (b : Nat) (h : dirOk s) :
    dirOk (decodeStep s b) := by
  obtain ⟨hh, hv⟩ := h
  simp only [decodeStep, dirOk]
  repeat' split
  all_goals simp_all
  all_goals omega

theorem decodeStep_x_cases (s : DecodeState) (b : Nat) :
    (decodeStep s b).x = s.x ∨ (decodeStep s b).x = s.x + 1 * s.hDir ∨
      (decodeStep s b).x = s.x + 2 * s.hDir := by
  simp only [decodeStep]
  repeat' split
  all_goals simp

theorem decodeStep_y_cases (s : DecodeState) (b : Nat) :
    (decodeStep s b).y = s.y ∨ (decodeStep s b).y = s.y + 1 * s.vDir ∨
      (decodeStep s b).y = s.y + 2 * s.vDir := by
  simp only [decodeStep]
  repeat' split
  all_goals simp

theorem decodeStep_move_bound (s : DecodeState) (b : Nat) (h : dirOk s) :
    |(decodeStep s b).x - s.x| ≤ 2 ∧ |(decodeStep s b).y - s.y| ≤ 2 := by
  obtain ⟨hh, hv⟩ := h
  constructor
  · rcases hh with hh | hh <;>
      rcases decodeStep_x_cases s b with hx | hx | hx <;>
      rw [hx, abs_le] <;> omega
  · rcases hv with hv | hv <;>
      rcases decodeStep_y_cases s b with hy | hy | hy <;>
      rw [hy, abs_le] <;> omega

theorem binaryToVectorGo_lipschitz (l : List Nat) (s : DecodeState)
    (i : Nat) (hd : dirOk s) (hi : i < (binaryToVectorGo s l).length) :
    |((binaryToVectorGo s l).getD i ⟨0, 0, false⟩).x -
        (if i = 0 then s.x
         else ((binaryToVectorGo s l).getD (i - 1) ⟨0, 0, false⟩).x)| ≤ 2 ∧
    |((binaryToVectorGo s l).getD i ⟨0, 0, false⟩).y -
        (if i = 0 then s.y
         else ((binaryToVectorGo s l).getD (i - 1) ⟨0, 0, false⟩).y)| ≤ 2 := by
  induction l generalizing s i with
  | nil => simp [binaryToVectorGo] at hi
  | cons b rest ih =>
    simp only [binaryToVectorGo] at hi ⊢
    cases i with
    | zero =>
      simpa using decodeStep_move_bound s b ⟨hd.1, hd.2⟩
    | succ j =>
      have hj : j < (binaryToVectorGo (decodeStep s b) rest).length := by
        simpa using hi
      have := ih (decodeStep s b) j (decodeStep_dirOk s b hd) hj
      cases j with
      | zero => simpa using this
      | succ k => simpa using this

/-- C10: Every decoded point sequence is 2-Lipschitz per axis per step:
for every glyph and every index `i` into the decode, the point at `i`
differs from the point at `i - 1` (or from the origin (0,0) when `i = 0`)
by at most 2 in absolute value in `x` and in `y`, since a single stroke
moves 0, 1, or 2 units on each axis. -/
theorem binaryToVector_lipschitz (g : List Nat) (i : Nat)
    (hi : i < (binaryToVector g).length) :
    |((binaryToVector g).getD i ⟨0, 0, false⟩).x -
        (if i = 0 then 0
         else ((binaryToVector g).getD (i - 1) ⟨0, 0, false⟩).x)| ≤ 2 ∧
    |((binaryToVector g).getD i ⟨0, 0, false⟩).y -
        (if i = 0 then 0
         else ((binaryToVector g).getD (i - 1) ⟨0, 0, false⟩).y)| ≤ 2 :=
  binaryToVectorGo_lipschitz g initialState i ⟨Or.inl rfl, Or.inl rfl⟩ hi

/-- Witness for C10: the single-stroke glyph `[0b01010]` moves (2,2) from
the origin, within the per-axis bound. -/
theorem binaryToVector_lipschitz_witness :
    |((binaryToVector [0b01010]).getD 0 ⟨0, 0, false⟩).x -
        (if (0 : Nat) = 0 then 0
         else ((binaryToVector [0b01010]).getD (0 - 1) ⟨0, 0, false⟩).x)| ≤ 2 ∧
    |((binaryToVector [0b01010]).getD 0 ⟨0, 0, false⟩).y -
        (if (0 : Nat) = 0 then 0
         else ((binaryToVector [0b01010]).getD (0 - 1) ⟨0, 0, false⟩).y)| ≤ 2 :=
  binaryToVector_lipschitz [0b01010] 0 (by decide)
